import Mathlib

/-!
Verification development for the Yelp dataset batch importer
(`phase2_python.py`).  The importer reads newline-delimited JSON dumps and
populates ten relational tables through eight sequential loader passes, each
wrapped in one transaction by the `connect_psql` context manager.

The embedding below models:
* Python strings as `List Char`, with the string operations the source uses
  (`str.replace` on one-character patterns, `str.split(", ")`, `str.split("-")`);
* the database as lists of rows per table, with each `INSERT` statement's
  effect (including `ON CONFLICT ... DO NOTHING` no-op semantics) as a pure
  state transformation;
* statement failures through a fault oracle `fault : Stmt → Bool` deciding
  which `cursor.execute` calls raise;
* each loader's line loop as a total recursive function returning the
  uncommitted state (or the error that escaped the loop), the log lines it
  printed, and the trace of statements it attempted;
* `connect_psql` as the commit/rollback/close wrapper around one pass body;
* the module-level driver as the sequential execution of the eight loader
  calls, where an uncaught exception would abort the remaining calls.

Within a pass nothing is ever committed before the final `conn.commit()`, so a
mid-pass `cursor.connection.rollback()` always restores the state the pass
started from; the loops that roll back therefore carry that pass-start state.
-/

/-- Python strings are modelled as lists of characters. -/
abbrev Str := List Char

/-- Embeds Python `s.replace(old, new)` for a one-character pattern and a
one-character replacement: every occurrence of `old` becomes `new`. -/
def pyReplace (old new : Char) : Str → Str
  | [] => []
  | c :: cs => (if c = old then new else c) :: pyReplace old new cs

/-- Embeds `cleanStr4SQL` (source lines 47-51):
`s.replace("'", "`").replace("\n", " ")`. -/
def cleanStr4SQL (s : Str) : Str :=
  pyReplace '\n' ' ' (pyReplace '\'' '`' s)

/-- Modelled from the spec's words for the Sanitizer: per character, a quote
character becomes a backtick, a newline becomes a space, and every other
character is unchanged.  Compared against `cleanStr4SQL` in claim C7. -/
def sanitizeCharSpec (c : Char) : Char :=
  if c = '\'' then '`' else if c = '\n' then ' ' else c

/-- Embeds Python `s.split(", ")` (used on `categories`, `friends` and `date`
fields): scans left to right, splitting at each non-overlapping occurrence of
comma-space.  As in Python, splitting the empty string yields `[""]`. -/
def splitCS : Str → Str → List Str
  | acc, [] => [acc.reverse]
  | acc, ',' :: ' ' :: cs => acc.reverse :: splitCS [] cs
  | acc, c :: cs => splitCS (c :: acc) cs

/-- Embeds Python `s.split("-")` (used on the per-day hours range strings). -/
def splitDash : Str → Str → List Str
  | acc, [] => [acc.reverse]
  | acc, '-' :: cs => acc.reverse :: splitDash [] cs
  | acc, c :: cs => splitDash (c :: acc) cs

/-- Attribute values as consumed from the external normalizer `get_attributes`
(an external collaborator per the spec; only its output pairs reach this
core). -/
inductive Value where
  | vStr (s : Str)
  | vBool (b : Bool)
  | vInt (n : Int)
  | vNone
deriving DecidableEq

/-- Embeds Python `str(value)` on the values the normalizer yields. -/
def pyStr : Value → Str
  | .vStr s => s
  | .vBool true => "True".data
  | .vBool false => "False".data
  | .vInt n => (toString n).data
  | .vNone => "None".data

/-- Row of the Business table, with the columns of the INSERT at source
lines 64-72. -/
structure BusinessRow where
  business_id : Str
  business_name : Str
  business_address : Str
  city : Str
  state : Str
  zip_code : Str
  latitude : Value
  longitude : Value
  stars : Value
  is_open : Bool
  tip_count : Int
deriving DecidableEq

/-- Row of the YelpUser table (INSERT at source lines 173-181). -/
structure UserRow where
  user_id : Str
  user_name : Str
  yelping_since : Str
  tip_count : Int
  fans : Int
  average_stars : Value
  funny : Int
  useful : Int
  cool : Int
deriving DecidableEq

/-- Row of the Tip table (INSERT at source lines 218-225). -/
structure TipRow where
  user_id : Str
  business_id : Str
  timestamp : Str
  likes : Int
  text : Str
deriving DecidableEq

/-- Row of the Hours table (INSERT at source lines 155-158). -/
structure HoursRow where
  business_id : Str
  day_of_week : Str
  open_time : Str
  close_time : Str
deriving DecidableEq

/-- The ten tables the importer populates, each as a list of rows in insertion
order. -/
structure DB where
  business : List BusinessRow
  category : List Str
  businessCategory : List (Str × Str)
  attributes : List Str
  businessAttributeValue : List (Str × Str × Str)
  hours : List HoursRow
  yelpUser : List UserRow
  friendship : List (Str × Str)
  tip : List TipRow
  checkin : List (Str × Str)
deriving DecidableEq

def emptyDB : DB := ⟨[], [], [], [], [], [], [], [], [], []⟩

/-- The INSERT statements the importer issues, with their bound parameters. -/
inductive Stmt where
  | insBusiness (row : BusinessRow)
  | insCategory (name : Str)
  | insBusinessCategory (business_id category_name : Str)
  | insAttribute (name : Str)
  | insBusinessAttributeValue (business_id attribute_name attribute_value : Str)
  | insHours (row : HoursRow)
  | insUser (row : UserRow)
  | insFriendship (follower_id followee_id : Str)
  | insTip (row : TipRow)
  | insCheckin (business_id timestamp : Str)
deriving DecidableEq

/-- Boolean list membership used by the conflict checks. -/
def elemDec {α : Type} [DecidableEq α] (a : α) : List α → Bool
  | [] => false
  | b :: l => if b = a then true else elemDec a l

/-- Effect of each statement on the database.  `ON CONFLICT (key) DO NOTHING`
inserts are no-ops when a row with the same key exists; the bare
`ON CONFLICT DO NOTHING` inserts (Friendship, Tip, Checkin) are modelled as
full-row no-ops per the spec's conflict table; the BusinessCategory,
BusinessAttributeValue and Hours inserts have no conflict clause and always
append. -/
def applyStmt : Stmt → DB → DB
  | .insBusiness r, db =>
      if elemDec r.business_id (db.business.map (fun b => b.business_id)) then db
      else { db with business := db.business ++ [r] }
  | .insCategory n, db =>
      if elemDec n db.category then db
      else { db with category := db.category ++ [n] }
  | .insBusinessCategory b c, db =>
      { db with businessCategory := db.businessCategory ++ [(b, c)] }
  | .insAttribute n, db =>
      if elemDec n db.attributes then db
      else { db with attributes := db.attributes ++ [n] }
  | .insBusinessAttributeValue b a v, db =>
      { db with businessAttributeValue := db.businessAttributeValue ++ [(b, a, v)] }
  | .insHours r, db => { db with hours := db.hours ++ [r] }
  | .insUser r, db =>
      if elemDec r.user_id (db.yelpUser.map (fun u => u.user_id)) then db
      else { db with yelpUser := db.yelpUser ++ [r] }
  | .insFriendship f g, db =>
      if elemDec (f, g) db.friendship then db
      else { db with friendship := db.friendship ++ [(f, g)] }
  | .insTip r, db =>
      if elemDec r db.tip then db
      else { db with tip := db.tip ++ [r] }
  | .insCheckin b t, db =>
      if elemDec (b, t) db.checkin then db
      else { db with checkin := db.checkin ++ [(b, t)] }

/-- Failures that escape the per-row try blocks: a malformed JSON line
(`json.loads` raises), a field subscript on a missing key outside any try
block, or the ValueError of a tuple unpack of a split that did not yield
exactly two parts. -/
inductive PErr where
  | malformedJson
  | missingField (name : Str)
  | valueError
deriving DecidableEq

/-- One line of a JSON source as one loader reads it: `.ok r` is a line whose
parse and pre-try field accesses succeed, `.error e` is a line on which
`json.loads` or a field access placed before the per-row try block raises. -/
abbrev Line (R : Type) := Except PErr R

def lineOk {R : Type} : Line R → Bool
  | .ok _ => true
  | .error _ => false

/-- The log lines the loaders print from their except branches, keyed as the
source prints them. -/
inductive Log where
  | businessFail (business_id : Str)
  | categoryFail (business_id : Str)
  | attributeFail (business_id : Str)
  | hoursFail (business_id : Str)
  | userFail (user_id : Str)
  | friendshipFail (user_id : Str)
  | tipFail (user_id : Str)
  | checkinFail (business_id : Str)
deriving DecidableEq

/-- Result of one pass body: the state reached (or the error that escaped the
line loop), the printed per-row failure logs, and the trace of statements the
loop attempted to execute. -/
structure LoopOut where
  res : Except PErr DB
  logs : List Log
  trace : List Stmt

def LoopOut.withPre (l : List Log) (t : List Stmt) (o : LoopOut) : LoopOut :=
  ⟨o.res, l ++ o.logs, t ++ o.trace⟩

/-- Fields of one parsed line of yelp_business.JSON used by insert_business. -/
structure BizRecord where
  business_id : Str
  name : Str
  address : Str
  city : Str
  state : Str
  postal_code : Str
  latitude : Value
  longitude : Value
  stars : Value
  is_open : Int
deriving DecidableEq

/-- Fields of one parsed business line used by insert_business_categories:
`categories` is `none` when the key is absent (`data.get("categories", "")`
then yields the empty string). -/
structure CatRecord where
  business_id : Str
  categories : Option Str
deriving DecidableEq

/-- Fields used by insert_business_attributes: `attrPairs` is the flat
(name, value) sequence the external normalizer produced for the line. -/
structure AttrRecord where
  business_id : Str
  attrPairs : List (Str × Value)
deriving DecidableEq

/-- Fields used by insert_hours: `hours` is `data.get("hours", {}).items()`
in iteration order. -/
structure HoursRecord where
  business_id : Str
  hours : List (Str × Str)
deriving DecidableEq

/-- Fields of one parsed line of yelp_user.JSON used by insert_users. -/
structure UserRecord where
  user_id : Str
  name : Str
  yelping_since : Str
  tipcount : Int
  fans : Int
  average_stars : Value
  funny : Int
  useful : Int
  cool : Int
deriving DecidableEq

/-- Fields used by insert_friends. -/
structure FriendRecord where
  user_id : Str
  friends : Option Str
deriving DecidableEq

/-- Fields of one parsed line of yelp_tip.JSON used by insert_tips. -/
structure TipRecord where
  user_id : Str
  business_id : Str
  date : Str
  likes : Int
  text : Str
deriving DecidableEq

/-- Fields used by insert_checkins. -/
structure CheckRecord where
  business_id : Str
  date : Option Str
deriving DecidableEq

/-- Embeds `data.get(key, "")`: the default empty string when the key is
absent. -/
def pyGetStr (o : Option Str) : Str := o.getD []

/-- Row built by the Business INSERT tuple (source lines 68-72): name and
address sanitized, `is_open` compared against 1 for the boolean cast, and
`tip_count` the literal 0. -/
def mkBusinessRow (r : BizRecord) : BusinessRow :=
  ⟨r.business_id, cleanStr4SQL r.name, cleanStr4SQL r.address, r.city, r.state,
   r.postal_code, r.latitude, r.longitude, r.stars, decide (r.is_open = 1), 0⟩

/-- Line loop of `insert_business` (source lines 59-75): per line one insert
inside a try block that logs and continues, with no rollback. -/
def insert_business_loop (fault : Stmt → Bool) :
    List (Line BizRecord) → DB → LoopOut
  | [], db => ⟨.ok db, [], []⟩
  | .error e :: _, _ => ⟨.error e, [], []⟩
  | .ok r :: rest, db =>
      let s := Stmt.insBusiness (mkBusinessRow r)
      if fault s then
        (insert_business_loop fault rest db).withPre [.businessFail r.business_id] [s]
      else
        (insert_business_loop fault rest (applyStmt s db)).withPre [] [s]

/-- Per-category try block of `insert_business_categories` (source lines
90-106): the Category upsert, then the BusinessCategory link insert; if either
raises, the whole pass transaction is rolled back to the pass-start state
`db0` and the failure is logged. -/
def catTry (fault : Stmt → Bool) (db0 : DB) (bid cat : Str) (db : DB) :
    DB × List Log × List Stmt :=
  let s1 := Stmt.insCategory (cleanStr4SQL cat)
  if fault s1 then (db0, [.categoryFail bid], [s1])
  else
    let s2 := Stmt.insBusinessCategory bid (cleanStr4SQL cat)
    if fault s2 then (db0, [.categoryFail bid], [s1, s2])
    else (applyStmt s2 (applyStmt s1 db), [], [s1, s2])

/-- The `for category in categories` loop of `insert_business_categories`. -/
def catRowLoop (fault : Stmt → Bool) (db0 : DB) (bid : Str) :
    List Str → DB → DB × List Log × List Stmt
  | [], db => (db, [], [])
  | c :: cs, db =>
      let x := catTry fault db0 bid c db
      let y := catRowLoop fault db0 bid cs x.1
      (y.1, x.2.1 ++ y.2.1, x.2.2 ++ y.2.2)

/-- Line loop of `insert_business_categories` (source lines 84-107):
`data['business_id']` and the `categories` split happen outside any try
block. -/
def insert_business_categories_loop (fault : Stmt → Bool) (db0 : DB) :
    List (Line CatRecord) → DB → LoopOut
  | [], db => ⟨.ok db, [], []⟩
  | .error e :: _, _ => ⟨.error e, [], []⟩
  | .ok r :: rest, db =>
      let cats := splitCS [] (pyGetStr r.categories)
      let x := catRowLoop fault db0 r.business_id cats db
      (insert_business_categories_loop fault db0 rest x.1).withPre x.2.1 x.2.2

/-- Per-pair try block of `insert_business_attributes` (source lines 122-138):
Attribute upsert then BusinessAttributeValue insert, with pass-level rollback
to `db0` on failure; the stored value is `cleanStr4SQL(str(value))`. -/
def attrTry (fault : Stmt → Bool) (db0 : DB) (bid attr : Str) (value : Value)
    (db : DB) : DB × List Log × List Stmt :=
  let s1 := Stmt.insAttribute (cleanStr4SQL attr)
  if fault s1 then (db0, [.attributeFail bid], [s1])
  else
    let s2 := Stmt.insBusinessAttributeValue bid (cleanStr4SQL attr)
      (cleanStr4SQL (pyStr value))
    if fault s2 then (db0, [.attributeFail bid], [s1, s2])
    else (applyStmt s2 (applyStmt s1 db), [], [s1, s2])

/-- The `for attr, value in get_attributes(attributes)` loop. -/
def attrRowLoop (fault : Stmt → Bool) (db0 : DB) (bid : Str) :
    List (Str × Value) → DB → DB × List Log × List Stmt
  | [], db => (db, [], [])
  | (a, v) :: ps, db =>
      let x := attrTry fault db0 bid a v db
      let y := attrRowLoop fault db0 bid ps x.1
      (y.1, x.2.1 ++ y.2.1, x.2.2 ++ y.2.2)

/-- Line loop of `insert_business_attributes` (source lines 116-139). -/
def insert_business_attributes_loop (fault : Stmt → Bool) (db0 : DB) :
    List (Line AttrRecord) → DB → LoopOut
  | [], db => ⟨.ok db, [], []⟩
  | .error e :: _, _ => ⟨.error e, [], []⟩
  | .ok r :: rest, db =>
      let x := attrRowLoop fault db0 r.business_id r.attrPairs db
      (insert_business_attributes_loop fault db0 rest x.1).withPre x.2.1 x.2.2

/-- The `for day, time_range in hours.items()` loop of `insert_hours` (source
lines 152-160): the two-variable tuple unpack of `time_range.split("-")` sits
before the try block, so a split that does not yield exactly two parts raises
a ValueError out of the loop; an insert failure is only logged, with no
rollback. -/
def hoursRowLoop (fault : Stmt → Bool) (bid : Str) :
    List (Str × Str) → DB → Except PErr DB × List Log × List Stmt
  | [], db => (.ok db, [], [])
  | (day, range) :: rest, db =>
      match splitDash [] range with
      | [o, c] =>
          let s := Stmt.insHours ⟨bid, day, o, c⟩
          if fault s then
            let y := hoursRowLoop fault bid rest db
            (y.1, Log.hoursFail bid :: y.2.1, s :: y.2.2)
          else
            let y := hoursRowLoop fault bid rest (applyStmt s db)
            (y.1, y.2.1, s :: y.2.2)
      | _ => (.error .valueError, [], [])

/-- Line loop of `insert_hours` (source lines 146-161). -/
def insert_hours_loop (fault : Stmt → Bool) :
    List (Line HoursRecord) → DB → LoopOut
  | [], db => ⟨.ok db, [], []⟩
  | .error e :: _, _ => ⟨.error e, [], []⟩
  | .ok r :: rest, db =>
      match hoursRowLoop fault r.business_id r.hours db with
      | (.ok db1, lg, tr) => (insert_hours_loop fault rest db1).withPre lg tr
      | (.error e, lg, tr) => ⟨.error e, lg, tr⟩

/-- Row built by the YelpUser INSERT tuple (source lines 177-181). -/
def mkUserRow (r : UserRecord) : UserRow :=
  ⟨r.user_id, cleanStr4SQL r.name, r.yelping_since, r.tipcount, r.fans,
   r.average_stars, r.funny, r.useful, r.cool⟩

/-- Line loop of `insert_users` (source lines 169-184): log and continue, no
rollback. -/
def insert_users_loop (fault : Stmt → Bool) :
    List (Line UserRecord) → DB → LoopOut
  | [], db => ⟨.ok db, [], []⟩
  | .error e :: _, _ => ⟨.error e, [], []⟩
  | .ok r :: rest, db =>
      let s := Stmt.insUser (mkUserRow r)
      if fault s then
        (insert_users_loop fault rest db).withPre [.userFail r.user_id] [s]
      else
        (insert_users_loop fault rest (applyStmt s db)).withPre [] [s]

/-- Per-friend try block of `insert_friends` (source lines 198-205): log and
continue, no rollback. -/
def friendTry (fault : Stmt → Bool) (uid fid : Str) (db : DB) :
    DB × List Log × List Stmt :=
  let s := Stmt.insFriendship uid fid
  if fault s then (db, [.friendshipFail uid], [s])
  else (applyStmt s db, [], [s])

/-- The `for friend_id in friends` loop of `insert_friends`. -/
def friendRowLoop (fault : Stmt → Bool) (uid : Str) :
    List Str → DB → DB × List Log × List Stmt
  | [], db => (db, [], [])
  | f :: fs, db =>
      let x := friendTry fault uid f db
      let y := friendRowLoop fault uid fs x.1
      (y.1, x.2.1 ++ y.2.1, x.2.2 ++ y.2.2)

/-- Line loop of `insert_friends` (source lines 192-206). -/
def insert_friends_loop (fault : Stmt → Bool) :
    List (Line FriendRecord) → DB → LoopOut
  | [], db => ⟨.ok db, [], []⟩
  | .error e :: _, _ => ⟨.error e, [], []⟩
  | .ok r :: rest, db =>
      let friends := splitCS [] (pyGetStr r.friends)
      let x := friendRowLoop fault r.user_id friends db
      (insert_friends_loop fault rest x.1).withPre x.2.1 x.2.2

/-- Row built by the Tip INSERT tuple (source lines 222-225). -/
def mkTipRow (r : TipRecord) : TipRow :=
  ⟨r.user_id, r.business_id, r.date, r.likes, cleanStr4SQL r.text⟩

/-- Line loop of `insert_tips` (source lines 214-228): log and continue, no
rollback. -/
def insert_tips_loop (fault : Stmt → Bool) :
    List (Line TipRecord) → DB → LoopOut
  | [], db => ⟨.ok db, [], []⟩
  | .error e :: _, _ => ⟨.error e, [], []⟩
  | .ok r :: rest, db =>
      let s := Stmt.insTip (mkTipRow r)
      if fault s then
        (insert_tips_loop fault rest db).withPre [.tipFail r.user_id] [s]
      else
        (insert_tips_loop fault rest (applyStmt s db)).withPre [] [s]

/-- Per-timestamp try block of `insert_checkins` (source lines 242-251): on a
raise the whole pass transaction is rolled back to the pass-start state `db0`
and the failure is logged. -/
def checkinTry (fault : Stmt → Bool) (db0 : DB) (bid t : Str) (db : DB) :
    DB × List Log × List Stmt :=
  let s := Stmt.insCheckin bid t
  if fault s then (db0, [.checkinFail bid], [s])
  else (applyStmt s db, [], [s])

/-- The `for timestamp in checkins` loop of `insert_checkins`. -/
def checkinRowLoop (fault : Stmt → Bool) (db0 : DB) (bid : Str) :
    List Str → DB → DB × List Log × List Stmt
  | [], db => (db, [], [])
  | t :: ts, db =>
      let x := checkinTry fault db0 bid t db
      let y := checkinRowLoop fault db0 bid ts x.1
      (y.1, x.2.1 ++ y.2.1, x.2.2 ++ y.2.2)

/-- Line loop of `insert_checkins` (source lines 236-252). -/
def insert_checkins_loop (fault : Stmt → Bool) (db0 : DB) :
    List (Line CheckRecord) → DB → LoopOut
  | [], db => ⟨.ok db, [], []⟩
  | .error e :: _, _ => ⟨.error e, [], []⟩
  | .ok r :: rest, db =>
      let checkins := splitCS [] (pyGetStr r.date)
      let x := checkinRowLoop fault db0 r.business_id checkins db
      (insert_checkins_loop fault db0 rest x.1).withPre x.2.1 x.2.2

/-- Observable outcome of one `connect_psql`-wrapped pass: the committed
state, the pass body's printed logs and attempted statements, whether the
except branch printed a database error, whether the cursor and the connection
were closed, and whether anything propagated to the caller. -/
structure SessionResult where
  committed : DB
  logs : List Log
  trace : List Stmt
  dbErrorLogged : Bool
  cursorClosed : Bool
  connClosed : Bool
  raised : Bool
deriving DecidableEq

/-- Embeds `connect_psql` (source lines 21-45).  `connectFails` models
`psycopg2.connect` itself raising (then `conn` is None: nothing to roll back
or close).  Otherwise the body runs on the connection's state: on normal
return the transaction is committed; on a raise the transaction is rolled
back, the error is logged and swallowed; in both cases cursor and connection
are closed in the finally block.  Nothing is ever re-raised. -/
def connect_psql (connectFails : Bool) (body : DB → LoopOut) (db0 : DB) :
    SessionResult :=
  if connectFails then ⟨db0, [], [], true, false, false, false⟩
  else
    match body db0 with
    | ⟨.ok db1, lg, tr⟩ => ⟨db1, lg, tr, false, true, true, false⟩
    | ⟨.error _, lg, tr⟩ => ⟨db0, lg, tr, true, true, true, false⟩

def insert_business (fault : Stmt → Bool) (connectFails : Bool)
    (lines : List (Line BizRecord)) (db0 : DB) : SessionResult :=
  connect_psql connectFails (fun db => insert_business_loop fault lines db) db0

def insert_business_categories (fault : Stmt → Bool) (connectFails : Bool)
    (lines : List (Line CatRecord)) (db0 : DB) : SessionResult :=
  connect_psql connectFails
    (fun db => insert_business_categories_loop fault db lines db) db0

def insert_business_attributes (fault : Stmt → Bool) (connectFails : Bool)
    (lines : List (Line AttrRecord)) (db0 : DB) : SessionResult :=
  connect_psql connectFails
    (fun db => insert_business_attributes_loop fault db lines db) db0

def insert_hours (fault : Stmt → Bool) (connectFails : Bool)
    (lines : List (Line HoursRecord)) (db0 : DB) : SessionResult :=
  connect_psql connectFails (fun db => insert_hours_loop fault lines db) db0

def insert_users (fault : Stmt → Bool) (connectFails : Bool)
    (lines : List (Line UserRecord)) (db0 : DB) : SessionResult :=
  connect_psql connectFails (fun db => insert_users_loop fault lines db) db0

def insert_friends (fault : Stmt → Bool) (connectFails : Bool)
    (lines : List (Line FriendRecord)) (db0 : DB) : SessionResult :=
  connect_psql connectFails (fun db => insert_friends_loop fault lines db) db0

def insert_tips (fault : Stmt → Bool) (connectFails : Bool)
    (lines : List (Line TipRecord)) (db0 : DB) : SessionResult :=
  connect_psql connectFails (fun db => insert_tips_loop fault lines db) db0

def insert_checkins (fault : Stmt → Bool) (connectFails : Bool)
    (lines : List (Line CheckRecord)) (db0 : DB) : SessionResult :=
  connect_psql connectFails
    (fun db => insert_checkins_loop fault db lines db) db0

/-- The eight loader passes, named. -/
inductive PassName where
  | business
  | businessCategory
  | businessAttributeValue
  | hours
  | yelpUser
  | friendship
  | tip
  | checkin
deriving DecidableEq

/-- The four JSON source files as each loader reads them. -/
structure Inputs where
  businessLines : List (Line BizRecord)
  categoryLines : List (Line CatRecord)
  attributeLines : List (Line AttrRecord)
  hoursLines : List (Line HoursRecord)
  userLines : List (Line UserRecord)
  friendLines : List (Line FriendRecord)
  tipLines : List (Line TipRecord)
  checkinLines : List (Line CheckRecord)

/-- The module-level driver calls (source lines 254-262), in source order. -/
def driverCalls (fault : Stmt → Bool) (cf : PassName → Bool) (inp : Inputs) :
    List (PassName × (DB → SessionResult)) :=
  [(.business, insert_business fault (cf .business) inp.businessLines),
   (.businessCategory,
     insert_business_categories fault (cf .businessCategory) inp.categoryLines),
   (.businessAttributeValue,
     insert_business_attributes fault (cf .businessAttributeValue)
       inp.attributeLines),
   (.hours, insert_hours fault (cf .hours) inp.hoursLines),
   (.yelpUser, insert_users fault (cf .yelpUser) inp.userLines),
   (.friendship, insert_friends fault (cf .friendship) inp.friendLines),
   (.tip, insert_tips fault (cf .tip) inp.tipLines),
   (.checkin, insert_checkins fault (cf .checkin) inp.checkinLines)]

/-- Sequential execution of the module-level calls: each pass runs on the
state the previous pass committed, and an exception escaping a call would
abort the remaining calls (Python aborts the script on an uncaught
exception).  Returns the final state and, in execution order, the result of
every pass that ran. -/
def runSeq : List (PassName × (DB → SessionResult)) → DB →
    DB × List (PassName × SessionResult)
  | [], db => (db, [])
  | (n, f) :: rest, db =>
      let r := f db
      if r.raised then (r.committed, [(n, r)])
      else
        let y := runSeq rest r.committed
        (y.1, (n, r) :: y.2)

/-- The whole pipeline as the script runs it. -/
def runPipeline (fault : Stmt → Bool) (cf : PassName → Bool) (inp : Inputs)
    (db0 : DB) : DB × List (PassName × SessionResult) :=
  runSeq (driverCalls fault cf inp) db0

/-- The fault oracle of a run in which no insert raises. -/
def noFault : Stmt → Bool := fun _ => false

/-! ### Helper lemmas -/

lemma elemDec_iff {α : Type} [DecidableEq α] (a : α) (l : List α) :
    elemDec a l = true ↔ a ∈ l := by
  induction l with
  | nil => simp [elemDec]
  | cons b l ih =>
      simp only [elemDec, List.mem_cons]
      by_cases h : b = a
      · simp [h]
      · simp only [if_neg h, ih]
        constructor
        · exact Or.inr
        · rintro (rfl | hm)
          · exact absurd rfl h
          · exact hm

lemma connect_psql_raised (cf : Bool) (body : DB → LoopOut) (db0 : DB) :
    (connect_psql cf body db0).raised = false := by
  unfold connect_psql
  split
  · rfl
  · rcases h : body db0 with ⟨res, lg, tr⟩
    cases res <;> simp [h]

lemma connect_psql_congr (cf : Bool) (b1 b2 : DB → LoopOut) (db0 : DB)
    (h : b1 db0 = b2 db0) : connect_psql cf b1 db0 = connect_psql cf b2 db0 := by
  unfold connect_psql
  rw [h]

lemma cleanStr4SQL_cons (c : Char) (s : Str) :
    cleanStr4SQL (c :: s) = sanitizeCharSpec c :: cleanStr4SQL s := by
  simp only [cleanStr4SQL, pyReplace, sanitizeCharSpec]
  by_cases h1 : c = '\''
  · simp [h1]
  · by_cases h2 : c = '\n' <;> simp [h1, h2]

/-! ### Claim theorems -/

/-- C7: the Sanitizer `cleanStr4SQL` is a pure total function that replaces
every quote character with a backtick and every newline with a space, leaving
all other characters unchanged (it acts characterwise, by `sanitizeCharSpec`),
and it maps the string `O'Brien's Pub\nDowntown` to `O`Brien`s Pub Downtown`. -/
theorem claim_c7_sanitizer :
    (∀ s : Str, cleanStr4SQL s = s.map sanitizeCharSpec) ∧
    cleanStr4SQL ("O'Brien's Pub\nDowntown".data) =
      ("O`Brien`s Pub Downtown".data) := by
  constructor
  · intro s
    induction s with
    | nil => rfl
    | cons c cs ih => simp [cleanStr4SQL_cons, ih]
  · decide

/-- C2: the Session Scope `connect_psql`, once the connection and cursor are
acquired, runs the pass body on the connection's state; on normal return it
commits the body's final state; on any exception raised inside the protected
region it rolls back (committed state stays `db0`), logs the database error
and swallows the exception (nothing is raised to the caller); and it closes
both the cursor and the connection in every case. -/
theorem claim_c2_session_scope :
    ∀ (body : DB → LoopOut) (db0 : DB),
      (connect_psql false body db0).raised = false ∧
      (connect_psql false body db0).cursorClosed = true ∧
      (connect_psql false body db0).connClosed = true ∧
      (∀ db1, (body db0).res = .ok db1 →
        (connect_psql false body db0).committed = db1 ∧
        (connect_psql false body db0).dbErrorLogged = false) ∧
      (∀ e, (body db0).res = .error e →
        (connect_psql false body db0).committed = db0 ∧
        (connect_psql false body db0).dbErrorLogged = true) := by
  intro body db0
  rcases h : body db0 with ⟨res, lg, tr⟩
  cases res with
  | ok db1 =>
      refine ⟨?_, ?_, ?_, ?_, ?_⟩ <;> simp [connect_psql, h]
  | error e =>
      refine ⟨?_, ?_, ?_, ?_, ?_⟩ <;> simp [connect_psql, h]

/-- Witness for C2 at concrete bodies: a committing body and a raising body. -/
theorem claim_c2_session_scope_witness :
    (connect_psql false (fun db => ⟨.ok db, [], []⟩) emptyDB).committed =
      emptyDB ∧
    (connect_psql false (fun _ => ⟨.error .malformedJson, [], []⟩)
        emptyDB).dbErrorLogged = true := by
  have h1 := claim_c2_session_scope (fun db => ⟨.ok db, [], []⟩) emptyDB
  have h2 := claim_c2_session_scope (fun _ => ⟨.error .malformedJson, [], []⟩)
    emptyDB
  exact ⟨(h1.2.2.2.1 emptyDB rfl).1, (h2.2.2.2.2 .malformedJson rfl).2⟩

/-- C3: for every input, every fault pattern and every per-pass connection
outcome, the driver executes the eight passes exactly once each, in the fixed
source order Business, BusinessCategory, BusinessAttributeValue, Hours,
YelpUser, Friendship, Tip, Checkin, and no pass ever raises to the driver
(which is why no later pass is ever skipped). -/
theorem claim_c3_driver_order :
    ∀ (fault : Stmt → Bool) (cf : PassName → Bool) (inp : Inputs) (db0 : DB),
      (runPipeline fault cf inp db0).2.map Prod.fst =
        [PassName.business, PassName.businessCategory,
         PassName.businessAttributeValue, PassName.hours, PassName.yelpUser,
         PassName.friendship, PassName.tip, PassName.checkin] ∧
      (runPipeline fault cf inp db0).2.all (fun p => !p.2.raised) = true := by
  intro fault cf inp db0
  simp [runPipeline, driverCalls, runSeq, insert_business,
    insert_business_categories, insert_business_attributes, insert_hours,
    insert_users, insert_friends, insert_tips, insert_checkins,
    connect_psql_raised]

/-- C9: a record whose `categories`, `friends` or `date` field is absent or
empty is not skipped: `"".split(", ")` is `[""]`, so the loader runs exactly
one loop iteration and attempts exactly one insert (for BusinessCategory, the
lookup insert then the link insert) with the empty string as category name,
friend id, or timestamp. -/
theorem claim_c9_empty_split :
    (∀ (bid : Str) (o : Option Str) (db0 : DB), o = none ∨ o = some [] →
      (insert_business_categories noFault false [.ok ⟨bid, o⟩] db0).trace =
        [.insCategory [], .insBusinessCategory bid []]) ∧
    (∀ (uid : Str) (o : Option Str) (db0 : DB), o = none ∨ o = some [] →
      (insert_friends noFault false [.ok ⟨uid, o⟩] db0).trace =
        [.insFriendship uid []]) ∧
    (∀ (bid : Str) (o : Option Str) (db0 : DB), o = none ∨ o = some [] →
      (insert_checkins noFault false [.ok ⟨bid, o⟩] db0).trace =
        [.insCheckin bid []]) := by
  refine ⟨fun bid o db0 h => ?_, fun uid o db0 h => ?_, fun bid o db0 h => ?_⟩ <;>
    rcases h with h | h <;> subst h <;> rfl

/-- Witness for C9: the three loaders on one record each with the field
absent, from the empty database. -/
theorem claim_c9_empty_split_witness :
    (insert_business_categories noFault false [.ok ⟨"b".data, none⟩]
        emptyDB).trace = [.insCategory [], .insBusinessCategory "b".data []] ∧
    (insert_friends noFault false [.ok ⟨"u".data, none⟩] emptyDB).trace =
      [.insFriendship "u".data []] ∧
    (insert_checkins noFault false [.ok ⟨"b".data, none⟩] emptyDB).trace =
      [.insCheckin "b".data []] :=
  ⟨claim_c9_empty_split.1 "b".data none emptyDB (Or.inl rfl),
   claim_c9_empty_split.2.1 "u".data none emptyDB (Or.inl rfl),
   claim_c9_empty_split.2.2 "b".data none emptyDB (Or.inl rfl)⟩

/-- The records of the lines that parse (the `.ok` lines), in order. -/
def okRecs {R : Type} : List (Line R) → List R
  | [] => []
  | .ok r :: rest => r :: okRecs rest
  | .error _ :: rest => okRecs rest

lemma bav_insAttribute (n : Str) (db : DB) :
    (applyStmt (.insAttribute n) db).businessAttributeValue =
      db.businessAttributeValue := by
  simp only [applyStmt]
  split <;> rfl

lemma bav_insBAV (b a v : Str) (db : DB) :
    (applyStmt (.insBusinessAttributeValue b a v) db).businessAttributeValue =
      db.businessAttributeValue ++ [(b, a, v)] := rfl

lemma attrRowLoop_noFault_bav (db0 : DB) (bid : Str)
    (ps : List (Str × Value)) :
    ∀ db : DB,
      ((attrRowLoop noFault db0 bid ps db).1).businessAttributeValue =
        db.businessAttributeValue ++
          ps.map (fun p => (bid, cleanStr4SQL p.1, cleanStr4SQL (pyStr p.2))) := by
  induction ps with
  | nil => intro db; simp [attrRowLoop]
  | cons p ps ih =>
      intro db
      rcases p with ⟨a, v⟩
      simp only [attrRowLoop, attrTry, noFault, Bool.false_eq_true, if_false, ih]
      simp [bav_insBAV, bav_insAttribute]

lemma attrRowLoop_noFault_logs (db0 : DB) (bid : Str)
    (ps : List (Str × Value)) :
    ∀ db : DB, (attrRowLoop noFault db0 bid ps db).2.1 = [] := by
  induction ps with
  | nil => intro db; rfl
  | cons p ps ih =>
      intro db
      rcases p with ⟨a, v⟩
      simp [attrRowLoop, attrTry, noFault, ih]

lemma attrs_loop_noFault (db0 : DB) (lines : List (Line AttrRecord)) :
    lines.all lineOk = true → ∀ db : DB,
      ∃ db1 tr, insert_business_attributes_loop noFault db0 lines db =
          ⟨.ok db1, [], tr⟩ ∧
        db1.businessAttributeValue = db.businessAttributeValue ++
          (okRecs lines).flatMap (fun r => r.attrPairs.map
            (fun p =>
              (r.business_id, cleanStr4SQL p.1, cleanStr4SQL (pyStr p.2)))) := by
  induction lines with
  | nil => exact fun _ db => ⟨db, [], rfl, by simp [okRecs]⟩
  | cons l rest ih =>
      intro h db
      cases l with
      | error e => simp [lineOk] at h
      | ok r =>
          have hrest : rest.all lineOk = true := by
            simpa [lineOk] using h
          obtain ⟨db1, tr, heq, hbav⟩ :=
            ih hrest (attrRowLoop noFault db0 r.business_id r.attrPairs db).1
          refine ⟨db1, (attrRowLoop noFault db0 r.business_id r.attrPairs db).2.2
            ++ tr, ?_, ?_⟩
          · simp [insert_business_attributes_loop, heq, LoopOut.withPre,
              attrRowLoop_noFault_logs]
          · rw [hbav, attrRowLoop_noFault_bav]
            simp [okRecs]

/-- C8 as stated is false on the code: the value column is
`cleanStr4SQL(str(value))`, not `str(value)`.  For the flattened pair
`("WiFi", "u'free'")` the inserted row carries `u`free``, which differs from
the string form `u'free'` of the original value. -/
theorem claim_c8_counterexample :
    (insert_business_attributes noFault false
        [.ok ⟨"b1".data, [("WiFi".data, Value.vStr "u'free'".data)]⟩]
        emptyDB).committed.businessAttributeValue =
      [("b1".data, "WiFi".data, "u`free`".data)] ∧
    ("u`free`".data : Str) ≠ pyStr (Value.vStr "u'free'".data) := by
  constructor
  · rfl
  · decide

/-- C8 amended: for every flattened (attribute name, value) pair of every
parsed line, the BusinessAttributeValue row inserted for it carries, as its
attribute value column, the sanitized string form of the original value —
`cleanStr4SQL` applied to `str(value)` (and the sanitized attribute name as
its name column). -/
theorem claim_c8_value_column :
    ∀ (lines : List (Line AttrRecord)) (db0 : DB), lines.all lineOk = true →
      (insert_business_attributes noFault false lines
          db0).committed.businessAttributeValue =
        db0.businessAttributeValue ++
          (okRecs lines).flatMap (fun r => r.attrPairs.map
            (fun p =>
              (r.business_id, cleanStr4SQL p.1, cleanStr4SQL (pyStr p.2)))) := by
  intro lines db0 h
  obtain ⟨db1, tr, heq, hbav⟩ := attrs_loop_noFault db0 lines h db0
  simp [insert_business_attributes, connect_psql, heq, hbav]

/-- Witness for the amended C8 on one concrete line with a boolean and a
nested-looking string value. -/
theorem claim_c8_value_column_witness :
    (insert_business_attributes noFault false
        [.ok ⟨"b2".data, [("BusinessAcceptsCreditCards".data, Value.vBool true),
          ("WiFi".data, Value.vStr "u'free'".data)]⟩]
        emptyDB).committed.businessAttributeValue =
      [("b2".data, "BusinessAcceptsCreditCards".data, "True".data),
       ("b2".data, "WiFi".data, "u`free`".data)] := by
  have h := claim_c8_value_column
    [.ok ⟨"b2".data, [("BusinessAcceptsCreditCards".data, Value.vBool true),
      ("WiFi".data, Value.vStr "u'free'".data)]⟩] emptyDB (by decide)
  rw [h]
  rfl

lemma LoopOut.withPre_res (l : List Log) (t : List Stmt) (o : LoopOut) :
    (LoopOut.withPre l t o).res = o.res := rfl

lemma business_loop_error (fault : Stmt → Bool) (e : PErr)
    (pre post : List (Line BizRecord)) :
    pre.all lineOk = true → ∀ db : DB,
      (insert_business_loop fault (pre ++ .error e :: post) db).res = .error e ∧
      insert_business_loop fault (pre ++ .error e :: post) db =
        insert_business_loop fault (pre ++ [.error e]) db := by
  induction pre with
  | nil => exact fun _ db => ⟨rfl, rfl⟩
  | cons l rest ih =>
      intro h db
      cases l with
      | error e2 => simp [lineOk] at h
      | ok r =>
          have hrest : rest.all lineOk = true := by simpa [lineOk] using h
          constructor
          · simp only [List.cons_append, insert_business_loop, List.append_eq]
            split <;> rw [LoopOut.withPre_res, (ih hrest _).1]
          · simp only [List.cons_append, insert_business_loop, List.append_eq]
            split <;> rw [(ih hrest _).2]

lemma cats_loop_error (fault : Stmt → Bool) (db0 : DB) (e : PErr)
    (pre post : List (Line CatRecord)) :
    pre.all lineOk = true → ∀ db : DB,
      (insert_business_categories_loop fault db0
          (pre ++ .error e :: post) db).res = .error e ∧
      insert_business_categories_loop fault db0 (pre ++ .error e :: post) db =
        insert_business_categories_loop fault db0 (pre ++ [.error e]) db := by
  induction pre with
  | nil => exact fun _ db => ⟨rfl, rfl⟩
  | cons l rest ih =>
      intro h db
      cases l with
      | error e2 => simp [lineOk] at h
      | ok r =>
          have hrest : rest.all lineOk = true := by simpa [lineOk] using h
          constructor
          · simp only [List.cons_append, insert_business_categories_loop,
              List.append_eq]
            rw [LoopOut.withPre_res, (ih hrest _).1]
          · simp only [List.cons_append, insert_business_categories_loop,
              List.append_eq]
            rw [(ih hrest _).2]

/-- C4: a line that is malformed JSON (any loader; here the Business loader,
whose `json.loads` is outside the try block) or whose pre-try field access
raises (here the BusinessCategory loader's `data['business_id']`) aborts the
entire pass: the exception escapes the line loop, the Session Scope rolls the
pass back (committed state stays `db0`, all unflushed work lost), logs the
database error and swallows it, and no later line of that source is processed
(the result does not depend on the lines after the failing one). -/
theorem claim_c4_parse_abort :
    ∀ (fault : Stmt → Bool) (e : PErr) (db0 : DB),
      (∀ (pre post : List (Line BizRecord)), pre.all lineOk = true →
        (insert_business fault false (pre ++ .error e :: post) db0).committed
            = db0 ∧
        (insert_business fault false
            (pre ++ .error e :: post) db0).dbErrorLogged = true ∧
        (insert_business fault false (pre ++ .error e :: post) db0).raised
            = false ∧
        insert_business fault false (pre ++ .error e :: post) db0 =
          insert_business fault false (pre ++ [.error e]) db0) ∧
      (∀ (pre post : List (Line CatRecord)), pre.all lineOk = true →
        (insert_business_categories fault false
            (pre ++ .error e :: post) db0).committed = db0 ∧
        (insert_business_categories fault false
            (pre ++ .error e :: post) db0).dbErrorLogged = true ∧
        (insert_business_categories fault false
            (pre ++ .error e :: post) db0).raised = false ∧
        insert_business_categories fault false (pre ++ .error e :: post) db0 =
          insert_business_categories fault false (pre ++ [.error e]) db0) := by
  intro fault e db0
  constructor
  · intro pre post hpre
    obtain ⟨hres, heq⟩ := business_loop_error fault e pre post hpre db0
    rcases hh : insert_business_loop fault (pre ++ .error e :: post) db0
      with ⟨res, lg, tr⟩
    rw [hh] at hres heq
    have hres' : res = .error e := hres
    subst hres'
    refine ⟨?_, ?_, ?_, ?_⟩
    · simp [insert_business, connect_psql, hh]
    · simp [insert_business, connect_psql, hh]
    · exact connect_psql_raised false _ db0
    · simp only [insert_business]
      exact connect_psql_congr false _ _ db0 (hh.trans heq)
  · intro pre post hpre
    obtain ⟨hres, heq⟩ := cats_loop_error fault db0 e pre post hpre db0
    rcases hh : insert_business_categories_loop fault db0
      (pre ++ .error e :: post) db0 with ⟨res, lg, tr⟩
    rw [hh] at hres heq
    have hres' : res = .error e := hres
    subst hres'
    refine ⟨?_, ?_, ?_, ?_⟩
    · simp [insert_business_categories, connect_psql, hh]
    · simp [insert_business_categories, connect_psql, hh]
    · exact connect_psql_raised false _ db0
    · simp only [insert_business_categories]
      exact connect_psql_congr false _ _ db0 (hh.trans heq)

/-- Witness for C4: a malformed second line after one good line, for the
Business and BusinessCategory loaders. -/
theorem claim_c4_parse_abort_witness :
    (insert_business noFault false
        [.ok ⟨"b1".data, "N".data, "A".data, "C".data, "S".data, "Z".data,
          .vNone, .vNone, .vNone, 1⟩, .error .malformedJson]
        emptyDB).committed = emptyDB ∧
    (insert_business_categories noFault false
        [.ok ⟨"b1".data, some "Bars".data⟩,
         .error (.missingField "business_id".data)]
        emptyDB).committed = emptyDB := by
  have h := claim_c4_parse_abort noFault .malformedJson emptyDB
  have h2 := claim_c4_parse_abort noFault (.missingField "business_id".data)
    emptyDB
  exact ⟨(h.1 [.ok ⟨"b1".data, "N".data, "A".data, "C".data, "S".data,
      "Z".data, .vNone, .vNone, .vNone, 1⟩] [] (by decide)).1,
    (h2.2 [.ok ⟨"b1".data, some "Bars".data⟩] [] (by decide)).1⟩

lemma all_cons_split {α : Type} (p : α → Bool) (a : α) (l : List α)
    (h : (a :: l).all p = true) : p a = true ∧ l.all p = true := by
  rw [List.all_cons, Bool.and_eq_true] at h
  exact h

/-- A (day, range) pair whose range string splits on a dash into exactly two
parts, i.e. contains exactly one dash. -/
def rangeOk (dc : Str × Str) : Bool := decide ((splitDash [] dc.2).length = 2)

/-- A parsed hours line all of whose day ranges are well formed. -/
def hoursLineWF : Line HoursRecord → Bool
  | .ok r => r.hours.all rangeOk
  | .error _ => false

def resOk : Except PErr DB → Bool
  | .ok _ => true
  | .error _ => false

lemma hoursRowLoop_wf (fault : Stmt → Bool) (bid : Str) :
    ∀ hs : List (Str × Str), hs.all rangeOk = true → ∀ db : DB,
      ∃ db1 lg tr, hoursRowLoop fault bid hs db = (.ok db1, lg, tr) := by
  intro hs
  induction hs with
  | nil => exact fun _ db => ⟨db, [], [], rfl⟩
  | cons dc rest ih =>
      intro h db
      rcases dc with ⟨day, range⟩
      have h1 : (splitDash [] range).length = 2 := by
        simpa [rangeOk] using (all_cons_split _ _ _ h).1
      have h2 : rest.all rangeOk = true := (all_cons_split _ _ _ h).2
      rcases hsp : splitDash [] range with _ | ⟨o, _ | ⟨c, _ | ⟨x, xs⟩⟩⟩ <;>
        rw [hsp] at h1 <;> try simp at h1
      by_cases hf : fault (.insHours ⟨bid, day, o, c⟩)
      · obtain ⟨db1, lg, tr, hr⟩ := ih h2 db
        exact ⟨db1, Log.hoursFail bid :: lg, Stmt.insHours ⟨bid, day, o, c⟩ :: tr,
          by simp [hoursRowLoop, hsp, hf, hr]⟩
      · obtain ⟨db1, lg, tr, hr⟩ :=
          ih h2 (applyStmt (.insHours ⟨bid, day, o, c⟩) db)
        exact ⟨db1, lg, Stmt.insHours ⟨bid, day, o, c⟩ :: tr,
          by simp [hoursRowLoop, hsp, hf, hr]⟩

lemma hoursRowLoop_bad (fault : Stmt → Bool) (bid : Str)
    (day range : Str) (hrest : List (Str × Str)) :
    ∀ hpre : List (Str × Str), hpre.all rangeOk = true →
      (splitDash [] range).length ≠ 2 → ∀ db : DB,
      (hoursRowLoop fault bid (hpre ++ (day, range) :: hrest) db).1 =
        .error .valueError ∧
      hoursRowLoop fault bid (hpre ++ (day, range) :: hrest) db =
        hoursRowLoop fault bid (hpre ++ [(day, range)]) db := by
  intro hpre
  induction hpre with
  | nil =>
      intro _ hbad db
      rcases hsp : splitDash [] range with _ | ⟨o, _ | ⟨c, _ | ⟨x, xs⟩⟩⟩
      · exact ⟨by simp [hoursRowLoop, hsp], by simp [hoursRowLoop, hsp]⟩
      · exact ⟨by simp [hoursRowLoop, hsp], by simp [hoursRowLoop, hsp]⟩
      · exact absurd (by rw [hsp]; rfl) hbad
      · exact ⟨by simp [hoursRowLoop, hsp], by simp [hoursRowLoop, hsp]⟩
  | cons dc rest ih =>
      intro h hbad db
      rcases dc with ⟨d2, r2⟩
      have h1 : (splitDash [] r2).length = 2 := by
        simpa [rangeOk] using (all_cons_split _ _ _ h).1
      have h2 : rest.all rangeOk = true := (all_cons_split _ _ _ h).2
      rcases hsp : splitDash [] r2 with _ | ⟨o, _ | ⟨c, _ | ⟨x, xs⟩⟩⟩ <;>
        rw [hsp] at h1 <;> try simp at h1
      constructor
      · simp only [List.cons_append, hoursRowLoop, hsp, List.append_eq]
        split <;> simp [(ih h2 hbad _).1]
      · simp only [List.cons_append, hoursRowLoop, hsp, List.append_eq]
        split <;> rw [(ih h2 hbad _).2]

lemma hours_loop_error (fault : Stmt → Bool) (r : HoursRecord)
    (post : List (Line HoursRecord)) (hpre : List (Str × Str))
    (day range : Str) (hrest : List (Str × Str)) :
    r.hours = hpre ++ (day, range) :: hrest →
    hpre.all rangeOk = true →
    (splitDash [] range).length ≠ 2 →
    ∀ pre : List (Line HoursRecord), pre.all hoursLineWF = true → ∀ db : DB,
      (insert_hours_loop fault (pre ++ .ok r :: post) db).res =
        .error .valueError ∧
      insert_hours_loop fault (pre ++ .ok r :: post) db =
        insert_hours_loop fault (pre ++ [.ok r]) db := by
  intro hr hwf hbad pre
  induction pre with
  | nil =>
      intro _ db
      obtain ⟨h1, h2⟩ := hoursRowLoop_bad fault r.business_id day range hrest
        hpre hwf hbad db
      rcases hh : hoursRowLoop fault r.business_id
        (hpre ++ (day, range) :: hrest) db with ⟨res, lg, tr⟩
      rw [hh] at h1 h2
      have h1' : res = .error .valueError := h1
      subst h1'
      constructor <;>
        simp [insert_hours_loop, hr, hh, ← h2]
  | cons l rest ih =>
      intro h db
      cases l with
      | error e2 => simp [hoursLineWF] at h
      | ok r2 =>
          have hl : r2.hours.all rangeOk = true := by
            simpa [hoursLineWF] using (all_cons_split _ _ _ h).1
          have hrest2 : rest.all hoursLineWF = true :=
            (all_cons_split _ _ _ h).2
          obtain ⟨db1, lg, tr, hok⟩ :=
            hoursRowLoop_wf fault r2.business_id r2.hours hl db
          constructor
          · simp only [List.cons_append, insert_hours_loop, hok,
              List.append_eq]
            rw [LoopOut.withPre_res, (ih hrest2 _).1]
          · simp only [List.cons_append, insert_hours_loop, hok,
              List.append_eq]
            rw [(ih hrest2 _).2]

lemma hours_loop_wf (fault : Stmt → Bool) :
    ∀ lines : List (Line HoursRecord), lines.all hoursLineWF = true →
      ∀ db : DB, ∃ db1 lg tr,
        insert_hours_loop fault lines db = ⟨.ok db1, lg, tr⟩ := by
  intro lines
  induction lines with
  | nil => exact fun _ db => ⟨db, [], [], rfl⟩
  | cons l rest ih =>
      intro h db
      cases l with
      | error e2 => simp [hoursLineWF] at h
      | ok r =>
          have hl : r.hours.all rangeOk = true := by
            simpa [hoursLineWF] using (all_cons_split _ _ _ h).1
          have hrest : rest.all hoursLineWF = true :=
            (all_cons_split _ _ _ h).2
          obtain ⟨db1, lg, tr, hok⟩ :=
            hoursRowLoop_wf fault r.business_id r.hours hl db
          obtain ⟨db2, lg2, tr2, hok2⟩ := ih hrest db1
          exact ⟨db2, lg ++ lg2, tr ++ tr2,
            by simp [insert_hours_loop, hok, hok2, LoopOut.withPre]⟩

/-- C10: in the Hours loader the tuple unpack of `time_range.split("-")`
happens outside the per-row try block, so a day whose range string does not
split into exactly two parts (no dash, or more than one dash) raises out of
the loop: the whole Hours pass is rolled back (committed state stays `db0`)
and abandoned (the lines after the failing one are irrelevant to the
result), the Session Scope logs and swallows the error; whereas if every
range has exactly one dash, the loop finishes normally under every fault
pattern — only such ranges reach the per-row error handling. -/
theorem claim_c10_hours_unpack :
    ∀ (fault : Stmt → Bool) (db0 : DB),
      (∀ (pre post : List (Line HoursRecord)) (r : HoursRecord)
          (hpre : List (Str × Str)) (day range : Str)
          (hrest : List (Str × Str)),
        pre.all hoursLineWF = true →
        r.hours = hpre ++ (day, range) :: hrest →
        hpre.all rangeOk = true →
        (splitDash [] range).length ≠ 2 →
        (insert_hours fault false (pre ++ .ok r :: post) db0).committed = db0 ∧
        (insert_hours fault false
            (pre ++ .ok r :: post) db0).dbErrorLogged = true ∧
        (insert_hours fault false (pre ++ .ok r :: post) db0).raised = false ∧
        insert_hours fault false (pre ++ .ok r :: post) db0 =
          insert_hours fault false (pre ++ [.ok r]) db0) ∧
      (∀ lines : List (Line HoursRecord), lines.all hoursLineWF = true →
        resOk (insert_hours_loop fault lines db0).res = true) := by
  intro fault db0
  constructor
  · intro pre post r hpre day range hrest hwfpre hr hwf hbad
    obtain ⟨h1, h2⟩ := hours_loop_error fault r post hpre day range hrest hr
      hwf hbad pre hwfpre db0
    rcases hh : insert_hours_loop fault (pre ++ .ok r :: post) db0
      with ⟨res, lg, tr⟩
    rw [hh] at h1 h2
    have h1' : res = .error .valueError := h1
    subst h1'
    refine ⟨?_, ?_, ?_, ?_⟩
    · simp [insert_hours, connect_psql, hh]
    · simp [insert_hours, connect_psql, hh]
    · exact connect_psql_raised false _ db0
    · simp only [insert_hours]
      exact connect_psql_congr false _ _ db0 (hh.trans h2)
  · intro lines hwf
    obtain ⟨db1, lg, tr, hok⟩ := hours_loop_wf fault lines hwf db0
    simp [hok, resOk]

/-- Witness for C10: a one-line input whose Monday range has no dash aborts
the pass; a one-line input with a proper range finishes the loop. -/
theorem claim_c10_hours_unpack_witness :
    (insert_hours noFault false
        [.ok ⟨"b".data, [("Mon".data, "0800".data)]⟩] emptyDB).committed =
      emptyDB ∧
    resOk (insert_hours_loop noFault
        [.ok ⟨"b".data, [("Mon".data, "08:00-17:00".data)]⟩]
        emptyDB).res = true := by
  have h := claim_c10_hours_unpack noFault emptyDB
  exact ⟨(h.1 [] [] ⟨"b".data, [("Mon".data, "0800".data)]⟩ [] "Mon".data
      "0800".data [] (by decide) rfl (by decide) (by decide)).1,
    h.2 [.ok ⟨"b".data, [("Mon".data, "08:00-17:00".data)]⟩] (by decide)⟩

/-- A parsed BusinessCategory line none of whose statements faults. -/
def catLineClean (fault : Stmt → Bool) : Line CatRecord → Bool
  | .ok r => (splitCS [] (pyGetStr r.categories)).all (fun c =>
      !fault (.insCategory (cleanStr4SQL c)) &&
      !fault (.insBusinessCategory r.business_id (cleanStr4SQL c)))
  | .error _ => false

/-- A parsed BusinessAttributeValue line none of whose statements faults. -/
def attrLineClean (fault : Stmt → Bool) : Line AttrRecord → Bool
  | .ok r => r.attrPairs.all (fun p =>
      !fault (.insAttribute (cleanStr4SQL p.1)) &&
      !fault (.insBusinessAttributeValue r.business_id (cleanStr4SQL p.1)
        (cleanStr4SQL (pyStr p.2))))
  | .error _ => false

/-- A parsed Checkin line none of whose statements faults. -/
def checkinLineClean (fault : Stmt → Bool) : Line CheckRecord → Bool
  | .ok r => (splitCS [] (pyGetStr r.date)).all (fun t =>
      !fault (.insCheckin r.business_id t))
  | .error _ => false

lemma catRowLoop_clean_logs (fault : Stmt → Bool) (db0 : DB) (bid : Str) :
    ∀ cs : List Str,
      cs.all (fun c => !fault (.insCategory (cleanStr4SQL c)) &&
        !fault (.insBusinessCategory bid (cleanStr4SQL c))) = true →
      ∀ db : DB, (catRowLoop fault db0 bid cs db).2.1 = [] := by
  intro cs
  induction cs with
  | nil => exact fun _ db => rfl
  | cons c rest ih =>
      intro h db
      have hc := (all_cons_split _ _ _ h).1
      have hrest := (all_cons_split _ _ _ h).2
      rw [Bool.and_eq_true, Bool.not_eq_true', Bool.not_eq_true'] at hc
      simp [catRowLoop, catTry, hc.1, hc.2, ih hrest]

lemma attrRowLoop_clean_logs (fault : Stmt → Bool) (db0 : DB) (bid : Str) :
    ∀ ps : List (Str × Value),
      ps.all (fun p => !fault (.insAttribute (cleanStr4SQL p.1)) &&
        !fault (.insBusinessAttributeValue bid (cleanStr4SQL p.1)
          (cleanStr4SQL (pyStr p.2)))) = true →
      ∀ db : DB, (attrRowLoop fault db0 bid ps db).2.1 = [] := by
  intro ps
  induction ps with
  | nil => exact fun _ db => rfl
  | cons p rest ih =>
      intro h db
      rcases p with ⟨a, v⟩
      have hc := (all_cons_split _ _ _ h).1
      have hrest := (all_cons_split _ _ _ h).2
      rw [Bool.and_eq_true, Bool.not_eq_true', Bool.not_eq_true'] at hc
      simp [attrRowLoop, attrTry, hc.1, hc.2, ih hrest]

lemma checkinRowLoop_clean_logs (fault : Stmt → Bool) (db0 : DB) (bid : Str) :
    ∀ ts : List Str,
      ts.all (fun t => !fault (.insCheckin bid t)) = true →
      ∀ db : DB, (checkinRowLoop fault db0 bid ts db).2.1 = [] := by
  intro ts
  induction ts with
  | nil => exact fun _ db => rfl
  | cons t rest ih =>
      intro h db
      have hc := (all_cons_split _ _ _ h).1
      have hrest := (all_cons_split _ _ _ h).2
      rw [Bool.not_eq_true'] at hc
      simp [checkinRowLoop, checkinTry, hc, ih hrest]

lemma cats_loop_rollback (fault : Stmt → Bool) (db0 : DB) (r : CatRecord)
    (c : Str) (post : List (Line CatRecord)) :
    splitCS [] (pyGetStr r.categories) = [c] →
    (fault (.insCategory (cleanStr4SQL c)) = true ∨
      fault (.insBusinessCategory r.business_id (cleanStr4SQL c)) = true) →
    ∀ pre : List (Line CatRecord), pre.all (catLineClean fault) = true →
      ∀ db : DB,
      (insert_business_categories_loop fault db0
          (pre ++ .ok r :: post) db).res =
        (insert_business_categories_loop fault db0 post db0).res ∧
      (insert_business_categories_loop fault db0
          (pre ++ .ok r :: post) db).logs =
        Log.categoryFail r.business_id ::
          (insert_business_categories_loop fault db0 post db0).logs := by
  intro hsplit hf pre
  induction pre with
  | nil =>
      intro _ db
      by_cases hf1 : fault (.insCategory (cleanStr4SQL c)) = true
      · constructor <;>
          simp [insert_business_categories_loop, hsplit, catRowLoop, catTry,
            hf1, LoopOut.withPre]
      · have hf2 : fault (.insBusinessCategory r.business_id (cleanStr4SQL c))
            = true := hf.resolve_left hf1
        constructor <;>
          simp [insert_business_categories_loop, hsplit, catRowLoop, catTry,
            hf1, hf2, LoopOut.withPre]
  | cons l rest ih =>
      intro h db
      cases l with
      | error e2 => simp [catLineClean] at h
      | ok r2 =>
          have hclean := (all_cons_split _ _ _ h).1
          have hrest := (all_cons_split _ _ _ h).2
          have hlogs : ∀ d : DB, (catRowLoop fault db0 r2.business_id
              (splitCS [] (pyGetStr r2.categories)) d).2.1 = [] :=
            catRowLoop_clean_logs fault db0 r2.business_id
              (splitCS [] (pyGetStr r2.categories)) hclean
          constructor
          · simp only [List.cons_append, insert_business_categories_loop,
              List.append_eq]
            rw [LoopOut.withPre_res, (ih hrest _).1]
          · simp only [List.cons_append, insert_business_categories_loop,
              List.append_eq, LoopOut.withPre]
            rw [hlogs, (ih hrest _).2]
            simp

lemma attrs_loop_rollback (fault : Stmt → Bool) (db0 : DB) (r : AttrRecord)
    (a : Str) (v : Value) (post : List (Line AttrRecord)) :
    r.attrPairs = [(a, v)] →
    (fault (.insAttribute (cleanStr4SQL a)) = true ∨
      fault (.insBusinessAttributeValue r.business_id (cleanStr4SQL a)
        (cleanStr4SQL (pyStr v))) = true) →
    ∀ pre : List (Line AttrRecord), pre.all (attrLineClean fault) = true →
      ∀ db : DB,
      (insert_business_attributes_loop fault db0
          (pre ++ .ok r :: post) db).res =
        (insert_business_attributes_loop fault db0 post db0).res ∧
      (insert_business_attributes_loop fault db0
          (pre ++ .ok r :: post) db).logs =
        Log.attributeFail r.business_id ::
          (insert_business_attributes_loop fault db0 post db0).logs := by
  intro hsplit hf pre
  induction pre with
  | nil =>
      intro _ db
      by_cases hf1 : fault (.insAttribute (cleanStr4SQL a)) = true
      · constructor <;>
          simp [insert_business_attributes_loop, hsplit, attrRowLoop, attrTry,
            hf1, LoopOut.withPre]
      · have hf2 : fault (.insBusinessAttributeValue r.business_id
            (cleanStr4SQL a) (cleanStr4SQL (pyStr v))) = true :=
          hf.resolve_left hf1
        constructor <;>
          simp [insert_business_attributes_loop, hsplit, attrRowLoop, attrTry,
            hf1, hf2, LoopOut.withPre]
  | cons l rest ih =>
      intro h db
      cases l with
      | error e2 => simp [attrLineClean] at h
      | ok r2 =>
          have hclean := (all_cons_split _ _ _ h).1
          have hrest := (all_cons_split _ _ _ h).2
          have hlogs : ∀ d : DB, (attrRowLoop fault db0 r2.business_id
              r2.attrPairs d).2.1 = [] :=
            attrRowLoop_clean_logs fault db0 r2.business_id r2.attrPairs
              hclean
          constructor
          · simp only [List.cons_append, insert_business_attributes_loop,
              List.append_eq]
            rw [LoopOut.withPre_res, (ih hrest _).1]
          · simp only [List.cons_append, insert_business_attributes_loop,
              List.append_eq, LoopOut.withPre]
            rw [hlogs, (ih hrest _).2]
            simp

lemma checkins_loop_rollback (fault : Stmt → Bool) (db0 : DB)
    (r : CheckRecord) (t : Str) (post : List (Line CheckRecord)) :
    splitCS [] (pyGetStr r.date) = [t] →
    fault (.insCheckin r.business_id t) = true →
    ∀ pre : List (Line CheckRecord), pre.all (checkinLineClean fault) = true →
      ∀ db : DB,
      (insert_checkins_loop fault db0 (pre ++ .ok r :: post) db).res =
        (insert_checkins_loop fault db0 post db0).res ∧
      (insert_checkins_loop fault db0 (pre ++ .ok r :: post) db).logs =
        Log.checkinFail r.business_id ::
          (insert_checkins_loop fault db0 post db0).logs := by
  intro hsplit hf pre
  induction pre with
  | nil =>
      intro _ db
      constructor <;>
        simp [insert_checkins_loop, hsplit, checkinRowLoop, checkinTry, hf,
          LoopOut.withPre]
  | cons l rest ih =>
      intro h db
      cases l with
      | error e2 => simp [checkinLineClean] at h
      | ok r2 =>
          have hclean := (all_cons_split _ _ _ h).1
          have hrest := (all_cons_split _ _ _ h).2
          have hlogs : ∀ d : DB, (checkinRowLoop fault db0 r2.business_id
              (splitCS [] (pyGetStr r2.date)) d).2.1 = [] :=
            checkinRowLoop_clean_logs fault db0 r2.business_id
              (splitCS [] (pyGetStr r2.date)) hclean
          constructor
          · simp only [List.cons_append, insert_checkins_loop,
              List.append_eq]
            rw [LoopOut.withPre_res, (ih hrest _).1]
          · simp only [List.cons_append, insert_checkins_loop,
              List.append_eq, LoopOut.withPre]
            rw [hlogs, (ih hrest _).2]
            simp

/-- C1: in the BusinessCategory, BusinessAttributeValue and Checkin loaders,
when a row's lookup insert or child insert raises, the loader rolls back the
entire pass transaction — the rest of the pass runs exactly as if the pass
had just started (every previously-successful, not-yet-committed insert of
the pass is discarded: the state is reset to the pass-start state `db0`) —
logs the failure, and continues with the remaining rows instead of aborting
the pass (the result is that of processing them, prefixed by the failure
log).  Stated for a faulting row with a single category / attribute pair /
timestamp, after any prefix of rows whose inserts all succeed. -/
theorem claim_c1_pass_rollback :
    (∀ (fault : Stmt → Bool) (db0 : DB) (r : CatRecord) (c : Str)
        (pre post : List (Line CatRecord)),
      splitCS [] (pyGetStr r.categories) = [c] →
      (fault (.insCategory (cleanStr4SQL c)) = true ∨
        fault (.insBusinessCategory r.business_id (cleanStr4SQL c)) = true) →
      pre.all (catLineClean fault) = true →
      (insert_business_categories_loop fault db0
          (pre ++ .ok r :: post) db0).res =
        (insert_business_categories_loop fault db0 post db0).res ∧
      (insert_business_categories_loop fault db0
          (pre ++ .ok r :: post) db0).logs =
        Log.categoryFail r.business_id ::
          (insert_business_categories_loop fault db0 post db0).logs) ∧
    (∀ (fault : Stmt → Bool) (db0 : DB) (r : AttrRecord) (a : Str) (v : Value)
        (pre post : List (Line AttrRecord)),
      r.attrPairs = [(a, v)] →
      (fault (.insAttribute (cleanStr4SQL a)) = true ∨
        fault (.insBusinessAttributeValue r.business_id (cleanStr4SQL a)
          (cleanStr4SQL (pyStr v))) = true) →
      pre.all (attrLineClean fault) = true →
      (insert_business_attributes_loop fault db0
          (pre ++ .ok r :: post) db0).res =
        (insert_business_attributes_loop fault db0 post db0).res ∧
      (insert_business_attributes_loop fault db0
          (pre ++ .ok r :: post) db0).logs =
        Log.attributeFail r.business_id ::
          (insert_business_attributes_loop fault db0 post db0).logs) ∧
    (∀ (fault : Stmt → Bool) (db0 : DB) (r : CheckRecord) (t : Str)
        (pre post : List (Line CheckRecord)),
      splitCS [] (pyGetStr r.date) = [t] →
      fault (.insCheckin r.business_id t) = true →
      pre.all (checkinLineClean fault) = true →
      (insert_checkins_loop fault db0 (pre ++ .ok r :: post) db0).res =
        (insert_checkins_loop fault db0 post db0).res ∧
      (insert_checkins_loop fault db0 (pre ++ .ok r :: post) db0).logs =
        Log.checkinFail r.business_id ::
          (insert_checkins_loop fault db0 post db0).logs) :=
  ⟨fun fault db0 r c pre post hs hf hp =>
      cats_loop_rollback fault db0 r c post hs hf pre hp db0,
   fun fault db0 r a v pre post hs hf hp =>
      attrs_loop_rollback fault db0 r a v post hs hf pre hp db0,
   fun fault db0 r t pre post hs hf hp =>
      checkins_loop_rollback fault db0 r t post hs hf pre hp db0⟩

/-- Witness for C1: in each of the three loaders, one successful row then a
row whose insert faults; the successful row's insert is discarded (the loop
result is the pass-start state) and the failure is logged. -/
theorem claim_c1_pass_rollback_witness :
    (insert_business_categories_loop
        (fun s => decide (s = .insBusinessCategory "b1".data "Bad".data))
        emptyDB
        [.ok ⟨"b0".data, some "Good".data⟩, .ok ⟨"b1".data, some "Bad".data⟩]
        emptyDB).res = .ok emptyDB ∧
    (insert_business_categories_loop
        (fun s => decide (s = .insBusinessCategory "b1".data "Bad".data))
        emptyDB
        [.ok ⟨"b0".data, some "Good".data⟩, .ok ⟨"b1".data, some "Bad".data⟩]
        emptyDB).logs = [Log.categoryFail "b1".data] ∧
    (insert_business_attributes_loop
        (fun s => decide (s = .insAttribute "Bad".data)) emptyDB
        [.ok ⟨"b0".data, [("Good".data, .vBool true)]⟩,
         .ok ⟨"b1".data, [("Bad".data, .vNone)]⟩]
        emptyDB).res = .ok emptyDB ∧
    (insert_checkins_loop
        (fun s => decide (s = .insCheckin "b1".data "t2".data)) emptyDB
        [.ok ⟨"b0".data, some "t1".data⟩, .ok ⟨"b1".data, some "t2".data⟩]
        emptyDB).res = .ok emptyDB := by
  have h1 := claim_c1_pass_rollback.1
    (fun s => decide (s = .insBusinessCategory "b1".data "Bad".data))
    emptyDB ⟨"b1".data, some "Bad".data⟩ "Bad".data
    [.ok ⟨"b0".data, some "Good".data⟩] [] (by decide) (Or.inr (by decide))
    (by decide)
  have h2 := claim_c1_pass_rollback.2.1
    (fun s => decide (s = .insAttribute "Bad".data))
    emptyDB ⟨"b1".data, [("Bad".data, .vNone)]⟩ "Bad".data .vNone
    [.ok ⟨"b0".data, [("Good".data, .vBool true)]⟩] [] (by decide)
    (Or.inl (by decide)) (by decide)
  have h3 := claim_c1_pass_rollback.2.2
    (fun s => decide (s = .insCheckin "b1".data "t2".data))
    emptyDB ⟨"b1".data, some "t2".data⟩ "t2".data
    [.ok ⟨"b0".data, some "t1".data⟩] [] (by decide) (by decide) (by decide)
  exact ⟨h1.1, h1.2, h2.1, h3.1⟩

/-- Whether a Business row with the given id exists: the conflict target of
the Business insert's `ON CONFLICT (business_id) DO NOTHING`. -/
def hasBiz (db : DB) (bid : Str) : Bool :=
  elemDec bid (db.business.map (fun b => b.business_id))

/-- Number of Business rows carrying the given id. -/
def countBiz (db : DB) (bid : Str) : Nat :=
  db.business.countP (fun b => decide (b.business_id = bid))

/-- State after a fault-free Business pass over the parsed records. -/
def businessFold (db : DB) (rows : List BizRecord) : DB :=
  rows.foldl (fun d r => applyStmt (.insBusiness (mkBusinessRow r)) d) db

lemma insBusiness_eq (r : BusinessRow) (db : DB) :
    applyStmt (.insBusiness r) db =
      if hasBiz db r.business_id then db
      else { db with business := db.business ++ [r] } := rfl

lemma mkBusinessRow_id (r : BizRecord) :
    (mkBusinessRow r).business_id = r.business_id := rfl

lemma hasBiz_iff (db : DB) (bid : Str) :
    hasBiz db bid = true ↔ ∃ b ∈ db.business, b.business_id = bid := by
  rw [hasBiz, elemDec_iff, List.mem_map]

lemma countBiz_pos_iff (db : DB) (bid : Str) :
    0 < countBiz db bid ↔ hasBiz db bid = true := by
  rw [hasBiz_iff, countBiz, List.countP_pos_iff]
  simp

lemma countBiz_insert (r : BusinessRow) (db : DB) (bid : Str) :
    countBiz (applyStmt (.insBusiness r) db) bid =
      if hasBiz db r.business_id then countBiz db bid
      else countBiz db bid + (if r.business_id = bid then 1 else 0) := by
  rw [insBusiness_eq]
  split
  · rfl
  · simp only [countBiz, List.countP_append, List.countP_cons,
      List.countP_nil]
    split <;> simp_all

lemma mem_insBusiness (r b : BusinessRow) (db : DB) :
    b ∈ (applyStmt (.insBusiness r) db).business ↔
      b ∈ db.business ∨ (hasBiz db r.business_id = false ∧ b = r) := by
  rw [insBusiness_eq]
  split <;> rename_i hc <;> simp_all

lemma hasBiz_after_insBusiness (r : BusinessRow) (db : DB) :
    hasBiz (applyStmt (.insBusiness r) db) r.business_id = true := by
  rw [insBusiness_eq]
  split
  · assumption
  · rw [hasBiz_iff]
    exact ⟨r, by simp, rfl⟩

lemma hasBiz_mono_insBusiness (r : BusinessRow) (db : DB) (bid : Str)
    (h : hasBiz db bid = true) :
    hasBiz (applyStmt (.insBusiness r) db) bid = true := by
  rw [hasBiz_iff] at h ⊢
  obtain ⟨b, hb, hid⟩ := h
  exact ⟨b, (mem_insBusiness r b db).mpr (Or.inl hb), hid⟩

lemma businessFold_mem (rows : List BizRecord) :
    ∀ (db : DB) (b : BusinessRow), b ∈ db.business →
      b ∈ (businessFold db rows).business := by
  induction rows with
  | nil => exact fun db b h => h
  | cons r rest ih =>
      intro db b h
      exact ih _ b ((mem_insBusiness (mkBusinessRow r) b db).mpr (Or.inl h))

lemma businessFold_mem_src (rows : List BizRecord) :
    ∀ (db : DB) (b : BusinessRow), b ∈ (businessFold db rows).business →
      b ∈ db.business ∨ ∃ r ∈ rows, b = mkBusinessRow r := by
  induction rows with
  | nil => exact fun db b h => Or.inl h
  | cons r rest ih =>
      intro db b h
      rcases ih _ b h with h2 | ⟨r2, hr2, hb2⟩
      · rcases (mem_insBusiness (mkBusinessRow r) b db).mp h2 with h3 | ⟨_, h3⟩
        · exact Or.inl h3
        · exact Or.inr ⟨r, List.mem_cons_self r rest, h3⟩
      · exact Or.inr ⟨r2, List.mem_cons_of_mem r hr2, hb2⟩

lemma businessFold_hasBiz_mono (rows : List BizRecord) :
    ∀ (db : DB) (bid : Str), hasBiz db bid = true →
      hasBiz (businessFold db rows) bid = true := by
  induction rows with
  | nil => exact fun db bid h => h
  | cons r rest ih =>
      exact fun db bid h => ih _ bid (hasBiz_mono_insBusiness _ db bid h)

lemma businessFold_hasBiz_of_mem (rows : List BizRecord) :
    ∀ (db : DB) (r : BizRecord), r ∈ rows →
      hasBiz (businessFold db rows) r.business_id = true := by
  induction rows with
  | nil => intro db r h; exact absurd h (List.not_mem_nil r)
  | cons r0 rest ih =>
      intro db r h
      rcases List.mem_cons.mp h with rfl | h2
      · exact businessFold_hasBiz_mono rest _ _
          (hasBiz_after_insBusiness (mkBusinessRow r) db)
      · exact ih _ r h2

lemma businessFold_count_stable (rows : List BizRecord) :
    ∀ (db : DB) (bid : Str), countBiz db bid = 1 →
      countBiz (businessFold db rows) bid = 1 := by
  induction rows with
  | nil => exact fun db bid h => h
  | cons r rest ih =>
      intro db bid h
      refine ih _ bid ?_
      rw [countBiz_insert]
      split
      · exact h
      · rename_i hnot
        split
        · rename_i hid
          exact absurd (countBiz_pos_iff db bid |>.mp (by omega)) (by
            rw [hid] at hnot
            simp [hnot])
        · omega

lemma businessFold_count_one (rows : List BizRecord) :
    ∀ (db : DB) (bid : Str), countBiz db bid = 0 →
      bid ∈ rows.map (fun r => r.business_id) →
      countBiz (businessFold db rows) bid = 1 := by
  induction rows with
  | nil => intro db bid _ h; simp at h
  | cons r rest ih =>
      intro db bid h0 hm
      by_cases hid : r.business_id = bid
      · have hno : hasBiz db r.business_id = false := by
          rw [hid]
          rcases hb : hasBiz db bid
          · rfl
          · exact absurd (countBiz_pos_iff db bid |>.mpr hb) (by omega)
        refine businessFold_count_stable rest _ bid ?_
        rw [countBiz_insert, mkBusinessRow_id, hno]
        simp [hid, h0]
      · have h0' : countBiz (applyStmt (.insBusiness (mkBusinessRow r)) db)
            bid = 0 := by
          rw [countBiz_insert, mkBusinessRow_id]
          split
          · exact h0
          · simp [hid, h0]
        have hm' : bid ∈ rest.map (fun r => r.business_id) := by
          rcases List.mem_map.mp hm with ⟨r2, hr2, hbid⟩
          rcases List.mem_cons.mp hr2 with rfl | h3
          · exact absurd hbid hid
          · exact List.mem_map.mpr ⟨r2, h3, hbid⟩
        exact ih _ bid h0' hm'

lemma businessFold_noop (rows : List BizRecord) :
    ∀ db : DB, (∀ r ∈ rows, hasBiz db r.business_id = true) →
      businessFold db rows = db := by
  induction rows with
  | nil => exact fun db _ => rfl
  | cons r rest ih =>
      intro db h
      have hr : applyStmt (.insBusiness (mkBusinessRow r)) db = db := by
        rw [insBusiness_eq, mkBusinessRow_id,
          if_pos (h r (List.mem_cons_self r rest))]
      show businessFold (applyStmt (.insBusiness (mkBusinessRow r)) db) rest
          = db
      rw [hr]
      exact ih db (fun r2 h2 => h r2 (List.mem_cons_of_mem r h2))

lemma business_loop_noFault (lines : List (Line BizRecord)) :
    lines.all lineOk = true → ∀ db : DB,
      ∃ tr, insert_business_loop noFault lines db =
        ⟨.ok (businessFold db (okRecs lines)), [], tr⟩ := by
  induction lines with
  | nil => exact fun _ db => ⟨[], rfl⟩
  | cons l rest ih =>
      intro h db
      cases l with
      | error e => simp [lineOk] at h
      | ok r =>
          obtain ⟨tr, htr⟩ := ih ((all_cons_split _ _ _ h).2)
            (applyStmt (.insBusiness (mkBusinessRow r)) db)
          exact ⟨Stmt.insBusiness (mkBusinessRow r) :: tr,
            by simp [insert_business_loop, noFault, htr, LoopOut.withPre,
              okRecs, businessFold]⟩

lemma insert_business_noFault_committed (lines : List (Line BizRecord))
    (db0 : DB) (h : lines.all lineOk = true) :
    (insert_business noFault false lines db0).committed =
      businessFold db0 (okRecs lines) := by
  obtain ⟨tr, htr⟩ := business_loop_noFault lines h db0
  simp [insert_business, connect_psql, htr]

/-- C5: running the Business loader twice over the same parsed input leaves
exactly one Business row per input business id not already present; a line
whose business id already exists is silently skipped, never overwriting or
removing any existing row (the first run's rows all survive, and the second
run changes nothing); and every row the pass inserts has tip count 0
regardless of the source data. -/
theorem claim_c5_business_idempotent :
    ∀ (lines : List (Line BizRecord)) (db0 : DB) (bid : Str),
      lines.all lineOk = true →
      countBiz db0 bid = 0 →
      bid ∈ (okRecs lines).map (fun r => r.business_id) →
      countBiz (insert_business noFault false lines db0).committed bid = 1 ∧
      (insert_business noFault false lines
          (insert_business noFault false lines db0).committed).committed
        = (insert_business noFault false lines db0).committed ∧
      (∀ b ∈ db0.business,
        b ∈ (insert_business noFault false lines db0).committed.business) ∧
      (∀ b ∈ (insert_business noFault false lines db0).committed.business,
        b ∉ db0.business → b.tip_count = 0) := by
  intro lines db0 bid h h0 hm
  rw [insert_business_noFault_committed lines db0 h]
  rw [insert_business_noFault_committed lines (businessFold db0 (okRecs lines))
    h]
  refine ⟨businessFold_count_one (okRecs lines) db0 bid h0 hm, ?_, ?_, ?_⟩
  · exact businessFold_noop (okRecs lines) _
      (fun r hr => businessFold_hasBiz_of_mem (okRecs lines) db0 r hr)
  · exact fun b hb => businessFold_mem (okRecs lines) db0 b hb
  · intro b hb hnb
    rcases businessFold_mem_src (okRecs lines) db0 b hb with h2 | ⟨r, _, rfl⟩
    · exact absurd h2 hnb
    · rfl

/-- Witness for C5: two lines sharing the id `b1` (the second with different
column values), loaded twice from the empty database. -/
theorem claim_c5_business_idempotent_witness :
    countBiz (insert_business noFault false
        [.ok ⟨"b1".data, "NameA".data, "Addr".data, "C".data, "S".data,
          "Z".data, .vNone, .vNone, .vNone, 1⟩,
         .ok ⟨"b1".data, "NameB".data, "Addr".data, "C".data, "S".data,
          "Z".data, .vNone, .vNone, .vNone, 0⟩]
        emptyDB).committed "b1".data = 1 := by
  have h := claim_c5_business_idempotent
    [.ok ⟨"b1".data, "NameA".data, "Addr".data, "C".data, "S".data,
      "Z".data, .vNone, .vNone, .vNone, 1⟩,
     .ok ⟨"b1".data, "NameB".data, "Addr".data, "C".data, "S".data,
      "Z".data, .vNone, .vNone, .vNone, 0⟩]
    emptyDB "b1".data (by decide) (by decide) (by decide)
  exact h.1

/-- Checks the ordering invariant on a statement trace: every BusinessCategory
link insert is preceded by a Category upsert for the same name (`seen` is the
set of category names upserted so far). -/
def linksAfterCats (seen : List Str) : List Stmt → Bool
  | [] => true
  | .insCategory c :: rest => linksAfterCats (c :: seen) rest
  | .insBusinessCategory _ c :: rest =>
      elemDec c seen && linksAfterCats seen rest
  | _ :: rest => linksAfterCats seen rest

lemma linksAfterCats_flatMap (bid : Str) (f : Str → Str) :
    ∀ (cs : List Str) (seen : List Str),
      linksAfterCats seen (cs.flatMap (fun c =>
        [.insCategory (f c), .insBusinessCategory bid (f c)])) = true := by
  intro cs
  induction cs with
  | nil => exact fun seen => rfl
  | cons c rest ih =>
      intro seen
      have hstep : (c :: rest).flatMap (fun c => [Stmt.insCategory (f c),
          Stmt.insBusinessCategory bid (f c)]) =
          Stmt.insCategory (f c) :: Stmt.insBusinessCategory bid (f c) ::
            rest.flatMap (fun c => [Stmt.insCategory (f c),
              Stmt.insBusinessCategory bid (f c)]) := rfl
      rw [hstep]
      simp only [linksAfterCats, elemDec]
      simp [ih (f c :: seen)]

lemma cat_effects_insCategory (n : Str) (db : DB) :
    (applyStmt (.insCategory n) db).category =
      (if elemDec n db.category then db.category else db.category ++ [n]) ∧
    (applyStmt (.insCategory n) db).businessCategory =
      db.businessCategory := by
  simp only [applyStmt]
  split <;> simp_all

lemma countP_eq_one_of_nodup {α : Type} [DecidableEq α] :
    ∀ (l : List α) (a : α), l.Nodup → a ∈ l →
      l.countP (fun x => decide (x = a)) = 1 := by
  intro l
  induction l with
  | nil => intro a _ h; exact absurd h (List.not_mem_nil a)
  | cons b t ih =>
      intro a hnd hm
      rw [List.countP_cons]
      rcases List.mem_cons.mp hm with rfl | hm2
      · have hb : a ∉ t := (List.nodup_cons.mp hnd).1
        have ht : t.countP (fun x => decide (x = a)) = 0 := by
          rw [List.countP_eq_zero]
          intro x hx
          simp only [decide_eq_true_eq]
          rintro rfl
          exact hb hx
        simp [ht]
      · have hb := (List.nodup_cons.mp hnd).1
        have hne : ¬(b = a) := fun hba => hb (hba ▸ hm2)
        simp [ih a (List.nodup_cons.mp hnd).2 hm2, hne]

lemma catRowLoop_fresh (db0 : DB) (bid : Str) :
    ∀ (cs : List Str) (db : DB), (cs.map cleanStr4SQL).Nodup →
      (∀ c ∈ cs, cleanStr4SQL c ∉ db.category) →
      (catRowLoop noFault db0 bid cs db).1.category =
          db.category ++ cs.map cleanStr4SQL ∧
      (catRowLoop noFault db0 bid cs db).1.businessCategory =
          db.businessCategory ++ cs.map (fun c => (bid, cleanStr4SQL c)) ∧
      (catRowLoop noFault db0 bid cs db).2.1 = [] ∧
      (catRowLoop noFault db0 bid cs db).2.2 =
          cs.flatMap (fun c => [.insCategory (cleanStr4SQL c),
            .insBusinessCategory bid (cleanStr4SQL c)]) := by
  intro cs
  induction cs with
  | nil => exact fun db _ _ => ⟨by simp [catRowLoop], by simp [catRowLoop],
      rfl, rfl⟩
  | cons c rest ih =>
      intro db hnd hfresh
      have hne : elemDec (cleanStr4SQL c) db.category = false := by
        rcases he : elemDec (cleanStr4SQL c) db.category
        · rfl
        · exact absurd ((elemDec_iff _ _).mp he)
            (hfresh c (List.mem_cons_self c rest))
      have hd1 : applyStmt (.insBusinessCategory bid (cleanStr4SQL c))
          (applyStmt (.insCategory (cleanStr4SQL c)) db) =
          { db with
              category := db.category ++ [cleanStr4SQL c]
              businessCategory :=
                db.businessCategory ++ [(bid, cleanStr4SQL c)] } := by
        simp only [applyStmt, hne, Bool.false_eq_true, if_false]
      have hnd2 : (rest.map cleanStr4SQL).Nodup :=
        (List.nodup_cons.mp (by simpa using hnd)).2
      have hnotin : cleanStr4SQL c ∉ rest.map cleanStr4SQL :=
        (List.nodup_cons.mp (by simpa using hnd)).1
      have hfresh2 : ∀ c2 ∈ rest, cleanStr4SQL c2 ∉
          (db.category ++ [cleanStr4SQL c]) := by
        intro c2 hc2
        rw [List.mem_append]
        rintro (hin | hin)
        · exact hfresh c2 (List.mem_cons_of_mem c hc2) hin
        · rcases List.mem_singleton.mp hin with heq
          exact hnotin (heq ▸ List.mem_map_of_mem cleanStr4SQL hc2)
      obtain ⟨ih1, ih2, ih3, ih4⟩ := ih
        { db with
            category := db.category ++ [cleanStr4SQL c]
            businessCategory :=
              db.businessCategory ++ [(bid, cleanStr4SQL c)] }
        hnd2 hfresh2
      refine ⟨?_, ?_, ?_, ?_⟩ <;>
        simp only [catRowLoop, catTry, noFault, Bool.false_eq_true, if_false,
          hd1, ih1, ih2, ih3, ih4] <;>
        simp [List.append_assoc]

/-- C6: for a business line whose categories field splits into distinct
sanitized names (such as `"Bars, Nightlife"`), one BusinessCategory pass from
fresh Category/BusinessCategory tables produces the Category table holding
each distinct name exactly once and the link table holding exactly one row
per (business, category) pair, in field order; and on the statement trace,
every link insert is preceded by the Category upsert of its name (the parent
lookup row exists before the child link row). -/
theorem claim_c6_category_links :
    ∀ (bid s : Str) (db0 : DB),
      db0.category = [] → db0.businessCategory = [] →
      ((splitCS [] s).map cleanStr4SQL).Nodup →
      (insert_business_categories noFault false [.ok ⟨bid, some s⟩]
          db0).committed.category = (splitCS [] s).map cleanStr4SQL ∧
      (insert_business_categories noFault false [.ok ⟨bid, some s⟩]
          db0).committed.businessCategory =
        (splitCS [] s).map (fun c => (bid, cleanStr4SQL c)) ∧
      linksAfterCats [] (insert_business_categories noFault false
          [.ok ⟨bid, some s⟩] db0).trace = true ∧
      (∀ c ∈ splitCS [] s,
        (insert_business_categories noFault false [.ok ⟨bid, some s⟩]
            db0).committed.category.countP
          (fun x => decide (x = cleanStr4SQL c)) = 1 ∧
        (insert_business_categories noFault false [.ok ⟨bid, some s⟩]
            db0).committed.businessCategory.countP
          (fun x => decide (x = (bid, cleanStr4SQL c))) = 1) := by
  intro bid s db0 hcat hbc hnd
  have hfresh : ∀ c ∈ splitCS [] s, cleanStr4SQL c ∉ db0.category := by
    intro c _ hin
    rw [hcat] at hin
    exact List.not_mem_nil _ hin
  obtain ⟨h1, h2, h3, h4⟩ := catRowLoop_fresh db0 bid (splitCS [] s) db0 hnd
    hfresh
  rcases hx : catRowLoop noFault db0 bid (splitCS [] s) db0
    with ⟨dbx, lgx, trx⟩
  rw [hx] at h1 h2 h3 h4
  dsimp only at h1 h2 h3 h4
  have hsession : insert_business_categories noFault false [.ok ⟨bid, some s⟩]
      db0 = ⟨dbx, lgx, trx, false, true, true, false⟩ := by
    simp [insert_business_categories, connect_psql,
      insert_business_categories_loop, pyGetStr, hx, LoopOut.withPre]
  rw [hsession]
  dsimp only
  rw [hcat] at h1
  rw [hbc] at h2
  simp only [List.nil_append] at h1 h2
  refine ⟨h1, h2, ?_, ?_⟩
  · rw [h4]
    exact linksAfterCats_flatMap bid cleanStr4SQL (splitCS [] s) []
  · intro c hc
    constructor
    · rw [h1]
      exact countP_eq_one_of_nodup _ _ hnd (List.mem_map_of_mem _ hc)
    · rw [h2]
      have hmapnd : ((splitCS [] s).map
          (fun c => (bid, cleanStr4SQL c))).Nodup := by
        have hmm : (splitCS [] s).map (fun c => (bid, cleanStr4SQL c)) =
            ((splitCS [] s).map cleanStr4SQL).map (fun x => (bid, x)) := by
          rw [List.map_map]
          rfl
        rw [hmm]
        exact hnd.map (fun a b hab => congrArg Prod.snd hab)
      exact countP_eq_one_of_nodup _ _ hmapnd (List.mem_map_of_mem _ hc)

/-- Witness for C6: the spec's example, categories `"Bars, Nightlife"` from
the empty database. -/
theorem claim_c6_category_links_witness :
    (insert_business_categories noFault false
        [.ok ⟨"b".data, some "Bars, Nightlife".data⟩]
        emptyDB).committed.category = ["Bars".data, "Nightlife".data] ∧
    (insert_business_categories noFault false
        [.ok ⟨"b".data, some "Bars, Nightlife".data⟩]
        emptyDB).committed.businessCategory =
      [("b".data, "Bars".data), ("b".data, "Nightlife".data)] ∧
    linksAfterCats [] (insert_business_categories noFault false
        [.ok ⟨"b".data, some "Bars, Nightlife".data⟩] emptyDB).trace =
      true := by
  have h := claim_c6_category_links "b".data "Bars, Nightlife".data emptyDB
    rfl rfl (by decide)
  exact ⟨h.1, h.2.1, h.2.2.1⟩
